import Mathlib

/-!
# Verification of the golang-reactor host harnesses

A shallow embedding of the two host harnesses of the `golang-reactor`
repository:

* `js-harness/src/index.ts` — the JavaScript/TypeScript harness
  (`createReactor`, the `Reactor` class with `startMain` / `runSync` /
  `runAsync`, and the `createMinimalWASI` shim), and
* `wazero-go/reactor.go` — the Go harness (`NewReactor`, `StartMain`,
  `Run`, `RunWithCallback`).

Guest modules are modelled by the script of outcomes their exported
entry points produce: a tick script is the list of results of
successive `go_tick` invocations (either a returned integer or a
thrown/trapped error).  Guest linear memory is a sized byte store;
the JavaScript typed-array / DataView operations used by the shim are
embedded with their exact bounds semantics (`DataView` accessors and
`Uint8Array.set` throw `RangeError` out of bounds, `Uint8Array.slice`
clamps, a plain indexed store out of bounds is silently ignored).
-/

namespace Reactor

/-! ## Guest linear memory

`Mem` models the guest's `WebAssembly.Memory` buffer as seen through
`new Uint8Array(memory.buffer)` / `new DataView(memory.buffer)`: a size
and a byte-valued function on addresses. -/

/-- A guest linear-memory buffer: `size` bytes, `byteAt a` the byte stored
at address `a` (only addresses `< size` are meaningful). -/
structure Mem where
  size : Nat
  byteAt : Nat → Nat

/-- Build a memory from a literal list of bytes (addresses past the end read 0). -/
def memOfList (l : List Nat) : Mem :=
  ⟨l.length, fun a => l.getD a 0⟩

/-- Read `len` bytes starting at `off` (unchecked; the checked operations
below guard their own bounds). -/
def readBytes (m : Mem) (off len : Nat) : List Nat :=
  (List.range len).map (fun j => m.byteAt (off + j))

/-- `Uint8Array.prototype.set(bs, off)`: writes `bs` at `off`, throwing
(`none`) if the write does not fit — JS throws a `RangeError` and writes
nothing. -/
def writeBytes (m : Mem) (off : Nat) (bs : List Nat) : Option Mem :=
  if off + bs.length ≤ m.size then
    some ⟨m.size, fun a =>
      if off ≤ a ∧ a < off + bs.length then bs.getD (a - off) 0 else m.byteAt a⟩
  else none

/-- A plain indexed store `mem[i] = v` on a `Uint8Array`: out-of-bounds
indices are silently ignored (no exception, no write). -/
def writeByteLenient (m : Mem) (i v : Nat) : Mem :=
  if i < m.size then ⟨m.size, fun a => if a = i then v else m.byteAt a⟩ else m

/-- `Uint8Array.prototype.slice(a, b)`: copies the clamped span `[a, b)`
out of the buffer (never throws). -/
def sliceClamped (m : Mem) (a b : Nat) : List Nat :=
  readBytes m (min a m.size) (min b m.size - min a m.size)

/-- The four little-endian bytes of `v` (as a `u32`; `v` is reduced mod `2^32`). -/
def u32Bytes (v : Nat) : List Nat :=
  [v % 256, v / 256 % 256, v / 65536 % 256, v / 16777216 % 256]

/-- `DataView.prototype.setUint32(off, v, true)`: little-endian store,
`RangeError` (`none`) unless `off + 4 ≤ size`. -/
def setUint32LE (m : Mem) (off v : Nat) : Option Mem :=
  writeBytes m off (u32Bytes v)

/-- `DataView.prototype.getUint32(off, true)`: little-endian load,
`RangeError` (`none`) unless `off + 4 ≤ size`. -/
def getUint32LE (m : Mem) (off : Nat) : Option Nat :=
  if off + 4 ≤ m.size then
    some (m.byteAt off + 256 * m.byteAt (off + 1) + 65536 * m.byteAt (off + 2)
      + 16777216 * m.byteAt (off + 3))
  else none

/-- The eight little-endian bytes of `v` (reduced mod `2^64`). -/
def u64Bytes (v : Nat) : List Nat :=
  [v % 256, v / 256 % 256, v / 65536 % 256, v / 16777216 % 256,
   v / 4294967296 % 256, v / 1099511627776 % 256,
   v / 281474976710656 % 256, v / 72057594037927936 % 256]

/-- `DataView.prototype.setBigUint64(off, v, true)`. -/
def setUint64LE (m : Mem) (off v : Nat) : Option Mem :=
  writeBytes m off (u64Bytes v)

/-- `DataView.prototype.setUint8(off, v)`. -/
def setUint8 (m : Mem) (off v : Nat) : Option Mem :=
  writeBytes m off [v % 256]

/-- `DataView.prototype.setUint16(off, v, true)`. -/
def setUint16LE (m : Mem) (off v : Nat) : Option Mem :=
  writeBytes m off [v % 256, v / 256 % 256]

/-! ## Scheduler loops

A guest tick script is a `List (Except ε Int)`: the outcome of each
successive `go_tick` invocation, in order — `.ok r` a normal return,
`.error e` a trap/thrown exception from the call.  The loops record the
host-observable events (entry-point invocations and suspensions). -/

/-- Host-observable events of a scheduler run. -/
inductive HostEvent where
  /-- the `go_start_main` export was invoked -/
  | startMain : HostEvent
  /-- the `go_tick` export was invoked -/
  | tick : HostEvent
  /-- `await Promise.resolve()` — a microtask yield after a Ready result -/
  | microtask : HostEvent
  /-- an asynchronous timer wait of `ms` milliseconds -/
  | sleep (ms : Int) : HostEvent
  /-- the busy-wait of `Reactor.runSync` for `ms` milliseconds -/
  | spin (ms : Int) : HostEvent
  deriving DecidableEq, Repr

/-- Number of `go_tick` invocations recorded in an event list. -/
def countTicks (evs : List HostEvent) : Nat :=
  evs.countP (fun e => e = HostEvent.tick)

/-- Number of `go_start_main` invocations recorded in an event list. -/
def countStartMain (evs : List HostEvent) : Nat :=
  evs.countP (fun e => e = HostEvent.startMain)

/-- Outcome of a run-to-completion call. -/
inductive RunOutcome (ε : Type) where
  /-- terminated because `go_tick` returned `-1` (Idle) -/
  | idle : RunOutcome ε
  /-- an entry-point invocation threw / returned an error, which the loop surfaced -/
  | threw (e : ε) : RunOutcome ε
  /-- the supplied tick script was exhausted before the loop stopped
  (the real loop would keep invoking `go_tick`) -/
  | outOfScript : RunOutcome ε
  deriving DecidableEq, Repr

/-- A completed run: its outcome and the events it produced. -/
structure RunTrace (ε : Type) where
  outcome : RunOutcome ε
  events : List HostEvent
  deriving DecidableEq, Repr

/-! ### JS harness: `Reactor.startMain`, `Reactor.runSync`, `Reactor.runAsync` -/

/-- A JavaScript exception value, as thrown by the shim or a guest trap. -/
inductive JsError where
  /-- `new Error(msg)` -/
  | error (msg : String) : JsError
  /-- a `TypeError`, e.g. reading `.buffer` of a `null` memory reference -/
  | typeError (msg : String) : JsError
  /-- a `RangeError`, e.g. an out-of-bounds `DataView` access -/
  | rangeError (msg : String) : JsError
  deriving DecidableEq, Repr

/-- `Reactor.startMain()`: guarded by the `mainStarted` flag — invokes
`go_start_main` only if it has not been invoked before.  Returns the new
flag value and the events produced. -/
def jsStartMain (mainStarted : Bool) : Bool × List HostEvent :=
  if mainStarted then (mainStarted, [])
  else (true, [HostEvent.startMain])

/-- The `while (true)` loop of `Reactor.runAsync` (index.ts): invoke
`go_tick`; on `-1` return; on `0` await a microtask and continue; on
`n > 0` await the wait callback; any other value falls through every
branch and the loop re-invokes `go_tick` immediately.  (The optional
`onTick` host callback is invoked before each tick; it produces no
guest-visible event and is not recorded.) -/
def jsRunAsyncLoop : List (Except JsError Int) → List HostEvent → RunTrace JsError
  | [], tr => ⟨.outOfScript, tr⟩
  | .error e :: _, tr => ⟨.threw e, tr ++ [HostEvent.tick]⟩
  | .ok r :: rest, tr =>
    let tr := tr ++ [HostEvent.tick]
    if r = -1 then ⟨.idle, tr⟩
    else if r = 0 then jsRunAsyncLoop rest (tr ++ [HostEvent.microtask])
    else if r > 0 then jsRunAsyncLoop rest (tr ++ [HostEvent.sleep r])
    else jsRunAsyncLoop rest tr

/-- `Reactor.runAsync()`: `this.startMain()` (guarded), then the loop. -/
def jsRunAsync (mainStarted : Bool) (script : List (Except JsError Int)) :
    Bool × RunTrace JsError :=
  let (s, ev) := jsStartMain mainStarted
  let t := jsRunAsyncLoop script ev
  (s, t)

/-- The loop of `Reactor.runSync`: on `-1` return; on `n > 0` busy-wait;
`0` (and any other value) just continues. -/
def jsRunSyncLoop : List (Except JsError Int) → List HostEvent → RunTrace JsError
  | [], tr => ⟨.outOfScript, tr⟩
  | .error e :: _, tr => ⟨.threw e, tr ++ [HostEvent.tick]⟩
  | .ok r :: rest, tr =>
    let tr := tr ++ [HostEvent.tick]
    if r = -1 then ⟨.idle, tr⟩
    else if r > 0 then jsRunSyncLoop rest (tr ++ [HostEvent.spin r])
    else jsRunSyncLoop rest tr

/-- `Reactor.runSync()`: `this.startMain()` (guarded), then the blocking loop. -/
def jsRunSync (mainStarted : Bool) (script : List (Except JsError Int)) :
    Bool × RunTrace JsError :=
  let (s, ev) := jsStartMain mainStarted
  let t := jsRunSyncLoop script ev
  (s, t)

/-! ### Go harness: `StartMain`, `Run`, `RunWithCallback`

The Go loops are modelled with no cancellation (`ctx` never done): the
`select` at the top of each iteration and inside the timer wait always
takes the `default` / timer branch.  Errors are Go `error` strings. -/

/-- The `for` loop of `Run` (reactor.go): `LoopOnce` invokes `go_tick`;
a call error returns `"loop once: "+err`; then
`switch { case -1: return nil; case 0: continue; case > 0: sleep, continue }`
— a negative result other than `-1` matches no case and the loop simply
continues to the next iteration. -/
def goRunLoop : List (Except String Int) → List HostEvent → RunTrace String
  | [], tr => ⟨.outOfScript, tr⟩
  | .error e :: _, tr => ⟨.threw ("loop once: " ++ e), tr ++ [HostEvent.tick]⟩
  | .ok r :: rest, tr =>
    let tr := tr ++ [HostEvent.tick]
    if r = -1 then ⟨.idle, tr⟩
    else if r = 0 then goRunLoop rest tr
    else if r > 0 then goRunLoop rest (tr ++ [HostEvent.sleep r])
    else goRunLoop rest tr

/-- `Reactor.StartMain` (Go): invokes `go_start_main` unconditionally —
there is no `mainStarted` guard in the Go harness.  `startResult` is the
outcome of the `goStartMain.Call`. -/
def goStartMain (startResult : Except String Unit) :
    Except String Unit × List HostEvent :=
  (startResult, [HostEvent.startMain])

/-- `Reactor.Run` (Go): `StartMain` (unguarded; an error returns
`"start main: "+err`), then the tick loop. -/
def goRun (startResult : Except String Unit) (script : List (Except String Int)) :
    RunTrace String :=
  match goStartMain startResult with
  | (.error e, ev) => ⟨.threw ("start main: " ++ e), ev⟩
  | (.ok _, ev) => goRunLoop script ev

/-- `Reactor.RunWithCallback` (Go): identical control flow to `Run` with
the host callback invoked before each tick; the callback produces no
guest-visible event, so the trace coincides with `Run`'s. -/
def goRunWithCallback (startResult : Except String Unit)
    (script : List (Except String Int)) : RunTrace String :=
  match goStartMain startResult with
  | (.error e, ev) => ⟨.threw ("start main: " ++ e), ev⟩
  | (.ok _, ev) => goRunLoop script ev

/-! ### Operation sequences on one reactor instance

For the start-main idempotence claim we execute an arbitrary sequence of
public operations against a single instance, threading the JS harness's
`mainStarted` flag, and count the `go_start_main` invocations. -/

/-- A public operation on the JS `Reactor` (each carrying the guest tick
script the contained loop would consume). -/
inductive JsOp where
  | startMain : JsOp
  | runSync (script : List (Except JsError Int)) : JsOp
  | runAsync (script : List (Except JsError Int)) : JsOp

/-- Execute one JS operation from `mainStarted` state `s`; returns the new
flag and the events produced. -/
def execJsOp (s : Bool) : JsOp → Bool × List HostEvent
  | .startMain => jsStartMain s
  | .runSync script => ((jsRunSync s script).1, (jsRunSync s script).2.events)
  | .runAsync script => ((jsRunAsync s script).1, (jsRunAsync s script).2.events)

/-- Execute a sequence of JS operations, threading the `mainStarted` flag. -/
def execJsOps : Bool → List JsOp → List HostEvent
  | _, [] => []
  | s, op :: ops => (execJsOp s op).2 ++ execJsOps (execJsOp s op).1 ops

/-- A public operation on the Go `Reactor` (carrying the guest outcomes). -/
inductive GoOp where
  | startMain (startResult : Except String Unit) : GoOp
  | run (startResult : Except String Unit) (script : List (Except String Int)) : GoOp
  | runWithCallback (startResult : Except String Unit)
      (script : List (Except String Int)) : GoOp

/-- Execute one Go operation (the Go harness keeps no `mainStarted` state). -/
def execGoOp : GoOp → List HostEvent
  | .startMain r => (goStartMain r).2
  | .run r script => (goRun r script).events
  | .runWithCallback r script => (goRunWithCallback r script).events

/-- Execute a sequence of Go operations. -/
def execGoOps : List GoOp → List HostEvent
  | [] => []
  | op :: ops => execGoOp op ++ execGoOps ops

/-! ### Instantiation-time export validation

`createReactor` (index.ts) and `NewReactor` (reactor.go) check the three
required function exports in the same order with distinct error messages.
Neither harness checks the linear-memory export. -/

/-- Which of the reactor exports a compiled module actually provides. -/
structure ModuleExports where
  /-- the module exports its linear memory under the name `memory` -/
  hasMemory : Bool
  hasInitialize : Bool
  hasStartMain : Bool
  hasTick : Bool
  deriving DecidableEq, Repr

/-- Result of instantiating a reactor: the value returned / error thrown,
plus whether the `_initialize` entry point was invoked. -/
structure CreateResult where
  result : Except String Unit
  initializeCalled : Bool
  deriving Repr

/-- `createReactor` (index.ts): validates `_initialize`, `go_start_main`
and `go_tick` (in that order, each with its own error message) before
invoking `_initialize`.  The `memory` export is never validated: a module
without it passes validation, `setMemory` receives `undefined`, and
`_initialize` is invoked anyway. -/
def createReactor (e : ModuleExports) : CreateResult :=
  if !e.hasInitialize then
    ⟨.error "Module does not export _initialize (not a WASI reactor?)", false⟩
  else if !e.hasStartMain then
    ⟨.error "Module does not export go_start_main (not built with modified Go runtime?)", false⟩
  else if !e.hasTick then
    ⟨.error "Module does not export go_tick (not built with modified Go runtime?)", false⟩
  else
    ⟨.ok (), true⟩

/-- `NewReactor` (reactor.go): same three checks (lowercase messages),
then `initialize.Call(ctx)` whose outcome is `initResult`; a failing
initializer call is wrapped as `"call _initialize: "+err`.  The memory
export is not validated here either. -/
def goNewReactor (e : ModuleExports) (initResult : Except String Unit) : CreateResult :=
  if !e.hasInitialize then
    ⟨.error "module does not export _initialize (not a WASI reactor?)", false⟩
  else if !e.hasStartMain then
    ⟨.error "module does not export go_start_main (not built with modified Go runtime?)", false⟩
  else if !e.hasTick then
    ⟨.error "module does not export go_tick (not built with modified Go runtime?)", false⟩
  else
    match initResult with
    | .error msg => ⟨.error ("call _initialize: " ++ msg), true⟩
    | .ok _ => ⟨.ok (), true⟩

/-! ## UTF-8 transcoding

`createMinimalWASI` moves text across the boundary with `TextEncoder`
(UTF-8 encode) and `TextDecoder` (WHATWG UTF-8 decode with replacement:
invalid sequences become U+FFFD).  Code points are modelled as `Nat`. -/

/-- UTF-8 encoding of one code point (`TextEncoder` semantics for scalar
values). -/
def encodeUtf8Char (c : Nat) : List Nat :=
  if c < 0x80 then [c]
  else if c < 0x800 then [0xC0 + c / 64, 0x80 + c % 64]
  else if c < 0x10000 then [0xE0 + c / 4096, 0x80 + c / 64 % 64, 0x80 + c % 64]
  else [0xF0 + c / 262144, 0x80 + c / 4096 % 64, 0x80 + c / 64 % 64, 0x80 + c % 64]

/-- UTF-8 encoding of a code-point sequence. -/
def encodeUtf8 (cps : List Nat) : List Nat :=
  (cps.map encodeUtf8Char).flatten

theorem encodeUtf8_append (a b : List Nat) :
    encodeUtf8 (a ++ b) = encodeUtf8 a ++ encodeUtf8 b := by
  simp [encodeUtf8]

/-- UTF-8 encoding of a host string (what `TextEncoder.encode` produces). -/
def encodeStr (s : String) : List Nat :=
  encodeUtf8 (s.data.map Char.toNat)

/-- Classification of a byte in the initial decoder state (WHATWG UTF-8
decoder): either it decodes on its own (ASCII, or U+FFFD for an invalid
lead byte), or it opens a multi-byte sequence with the given remaining
count, initial code point bits, and continuation-byte boundaries. -/
inductive Utf8Start where
  | emit (cp : Nat) : Utf8Start
  | multi (needed cp lo hi : Nat) : Utf8Start

/-- WHATWG UTF-8 decoder: handling of a byte when no sequence is open. -/
def utf8StartByte (b : Nat) : Utf8Start :=
  if b ≤ 0x7F then .emit b
  else if 0xC2 ≤ b ∧ b ≤ 0xDF then .multi 1 (b % 32) 0x80 0xBF
  else if 0xE0 ≤ b ∧ b ≤ 0xEF then
    .multi 2 (b % 16) (if b = 0xE0 then 0xA0 else 0x80) (if b = 0xED then 0x9F else 0xBF)
  else if 0xF0 ≤ b ∧ b ≤ 0xF4 then
    .multi 3 (b % 8) (if b = 0xF0 then 0x90 else 0x80) (if b = 0xF4 then 0x8F else 0xBF)
  else .emit 0xFFFD

/-- WHATWG UTF-8 decoder loop (`TextDecoder` with `fatal: false`): state
is (bytes needed, bytes seen, code point so far, lower/upper continuation
boundaries).  An invalid continuation byte emits U+FFFD and reprocesses
the byte in the initial state; a truncated sequence at end of input emits
a final U+FFFD. -/
def utf8DecLoop : List Nat → Nat → Nat → Nat → Nat → Nat → List Nat
  | [], needed, _, _, _, _ => if needed = 0 then [] else [0xFFFD]
  | b :: rest, needed, seen, cp, lo, hi =>
    if needed = 0 then
      match utf8StartByte b with
      | .emit c => c :: utf8DecLoop rest 0 0 0 0x80 0xBF
      | .multi n cp0 l h => utf8DecLoop rest n 0 cp0 l h
    else if lo ≤ b ∧ b ≤ hi then
      if seen + 1 = needed then (cp * 64 + b % 64) :: utf8DecLoop rest 0 0 0 0x80 0xBF
      else utf8DecLoop rest needed (seen + 1) (cp * 64 + b % 64) 0x80 0xBF
    else
      0xFFFD :: (match utf8StartByte b with
        | .emit c => c :: utf8DecLoop rest 0 0 0 0x80 0xBF
        | .multi n cp0 l h => utf8DecLoop rest n 0 cp0 l h)

/-- `TextDecoder.decode` (fresh, non-streaming): bytes to code points. -/
def utf8Decode (bs : List Nat) : List Nat :=
  utf8DecLoop bs 0 0 0 0x80 0xBF

/-! ## The minimal WASI shim (`createMinimalWASI` in index.ts)

Each handler receives the shim's captured `memory` reference as an
`Option Mem` (`none` before `setMemory` has been called).  The first
thing every memory-touching handler does is `new DataView(memory!.buffer)`
or `new Uint8Array(memory!.buffer)`, which throws a `TypeError` when the
reference is still `null`. -/

/-- The `TypeError` thrown by `memory!.buffer` when `memory` is `null`. -/
def nullMemErr : JsError :=
  JsError.typeError "Cannot read properties of null (reading byte buffer)"

/-- Lift a checked memory operation into the JS exception monad: `none`
becomes the `RangeError` thrown by `DataView` accessors / `Uint8Array.set`. -/
def orRange {α : Type} (o : Option α) : Except JsError α :=
  match o with
  | some a => Except.ok a
  | none => Except.error (JsError.rangeError "offset is outside the bounds")

/-- Shared shape of `args_sizes_get` / `environ_sizes_get`: store the
element count at `count_ptr` and the total byte size (each element's
encoding plus one NUL) at `bufsize_ptr`. -/
def vecSizesGet (mo : Option Mem) (encs : List (List Nat))
    (count_ptr bufsize_ptr : Nat) : Except JsError (Mem × Nat) :=
  match mo with
  | none => Except.error nullMemErr
  | some m => do
    let m1 ← orRange (setUint32LE m count_ptr encs.length)
    let bufSize := (encs.map (fun e => e.length + 1)).sum
    let m2 ← orRange (setUint32LE m1 bufsize_ptr bufSize)
    Except.ok (m2, 0)

/-- The `for` loop shared by `args_get` / `environ_get`: for element `i`,
store the current data offset into the pointer table
(`view.setUint32(ptr_table + i*4, bufOffset, true)`), copy the encoded
bytes (`mem.set(encoded, bufOffset)` — throws if it does not fit), store
the NUL terminator with a plain indexed write (`mem[...] = 0` — silently
ignored out of bounds), and advance by `length + 1`. -/
def vecGetLoop (table_ptr : Nat) :
    Mem → List (List Nat) → Nat → Nat → Except JsError Mem
  | m, [], _, _ => Except.ok m
  | m, e :: rest, i, bufOffset => do
    let m1 ← orRange (setUint32LE m (table_ptr + 4 * i) bufOffset)
    let m2 ← orRange (writeBytes m1 bufOffset e)
    let m3 := writeByteLenient m2 (bufOffset + e.length) 0
    vecGetLoop table_ptr m3 rest (i + 1) (bufOffset + e.length + 1)

/-- Shared shape of `args_get` / `environ_get`. -/
def vecGet (mo : Option Mem) (encs : List (List Nat))
    (table_ptr buf_ptr : Nat) : Except JsError (Mem × Nat) :=
  match mo with
  | none => Except.error nullMemErr
  | some m => do
    let m' ← vecGetLoop table_ptr m encs 0 buf_ptr
    Except.ok (m', 0)

/-- `args_sizes_get(argc_ptr, argv_buf_size_ptr)`. -/
def args_sizes_get (mo : Option Mem) (args : List String)
    (argc_ptr argv_buf_size_ptr : Nat) : Except JsError (Mem × Nat) :=
  vecSizesGet mo (args.map encodeStr) argc_ptr argv_buf_size_ptr

/-- `args_get(argv_ptr, argv_buf_ptr)`. -/
def args_get (mo : Option Mem) (args : List String)
    (argv_ptr argv_buf_ptr : Nat) : Except JsError (Mem × Nat) :=
  vecGet mo (args.map encodeStr) argv_ptr argv_buf_ptr

/-- The `KEY=VALUE` strings built from the `env` option
(`Object.entries(env).map(([k, v]) => k + "=" + v)`, in insertion order). -/
def envArray (env : List (String × String)) : List String :=
  env.map (fun kv => kv.1 ++ "=" ++ kv.2)

/-- `environ_sizes_get(environ_count_ptr, environ_buf_size_ptr)`. -/
def environ_sizes_get (mo : Option Mem) (env : List (String × String))
    (environ_count_ptr environ_buf_size_ptr : Nat) : Except JsError (Mem × Nat) :=
  vecSizesGet mo ((envArray env).map encodeStr) environ_count_ptr environ_buf_size_ptr

/-- `environ_get(environ_ptr, environ_buf_ptr)`. -/
def environ_get (mo : Option Mem) (env : List (String × String))
    (environ_ptr environ_buf_ptr : Nat) : Except JsError (Mem × Nat) :=
  vecGet mo ((envArray env).map encodeStr) environ_ptr environ_buf_ptr

/-- `clock_time_get(clock_id, precision, time_ptr)`: clock id 0 stores
`Date.now()` milliseconds scaled to nanoseconds; any other id stores the
(already nanosecond-rounded) `performance.now()` value.  The 64-bit store
wraps mod `2^64` as `setBigUint64` does. -/
def clock_time_get (mo : Option Mem) (clock_id : Nat) (nowMs perfNs : Nat)
    (time_ptr : Nat) : Except JsError (Mem × Nat) :=
  match mo with
  | none => Except.error nullMemErr
  | some m => do
    let time := if clock_id = 0 then nowMs * 1000000 else perfNs
    let m' ← orRange (setUint64LE m time_ptr time)
    Except.ok (m', 0)

/-- The `for` loop of `fd_write`: read each 8-byte iovec entry
(`RangeError` if the entry itself is out of bounds), copy the data span
with `mem.slice(ptr, ptr + len)` — which CLAMPS to the buffer end —
decode it, and accumulate `written += len` (the requested length, even
when the span was clamped). -/
def fdWriteLoop (m : Mem) (iovs_ptr : Nat) :
    Nat → Nat → List Nat → Nat → Except JsError (List Nat × Nat)
  | 0, _, text, written => Except.ok (text, written)
  | count + 1, i, text, written => do
    let ptr ← orRange (getUint32LE m (iovs_ptr + i * 8))
    let len ← orRange (getUint32LE m (iovs_ptr + i * 8 + 4))
    let bytes := sliceClamped m ptr (ptr + len)
    fdWriteLoop m iovs_ptr count (i + 1) (text ++ utf8Decode bytes) (written + len)

/-- `fd_write(fd, iovs_ptr, iovs_len, nwritten_ptr)`: concatenates the
decoded spans, routes the text to the stdout sink if `fd = 1`, the stderr
sink if `fd = 2` (dropped otherwise), stores the total requested length
at `nwritten_ptr`, and returns errno 0.  The result carries the new
memory, the errno, and the code points captured by each sink. -/
def fd_write (mo : Option Mem) (fd iovs_ptr iovs_len nwritten_ptr : Nat) :
    Except JsError (Mem × Nat × List Nat × List Nat) :=
  match mo with
  | none => Except.error nullMemErr
  | some m => do
    let (text, written) ← fdWriteLoop m iovs_ptr iovs_len 0 [] 0
    let toStdout := if fd = 1 then text else []
    let toStderr := if fd = 2 then text else []
    let m' ← orRange (setUint32LE m nwritten_ptr written)
    Except.ok (m', 0, toStdout, toStderr)

/-- `fd_fdstat_get(fd, stat_ptr)`: filetype 2 (character device) for
descriptors 0–2, 6 (regular file) otherwise; zero flags; all rights bits. -/
def fd_fdstat_get (mo : Option Mem) (fd stat_ptr : Nat) :
    Except JsError (Mem × Nat) :=
  match mo with
  | none => Except.error nullMemErr
  | some m => do
    let m1 ← orRange (setUint8 m stat_ptr (if fd ≤ 2 then 2 else 6))
    let m2 ← orRange (setUint16LE m1 (stat_ptr + 2) 0)
    let m3 ← orRange (setUint64LE m2 (stat_ptr + 8) 0xFFFFFFFFFFFFFFFF)
    let m4 ← orRange (setUint64LE m3 (stat_ptr + 16) 0xFFFFFFFFFFFFFFFF)
    Except.ok (m4, 0)

/-- What `crypto.getRandomValues` does to the typed array it is given:
fills every byte from the entropy source. -/
def getRandomValues (rnd : List Nat) (buf : List Nat) : List Nat :=
  (List.range buf.length).map (fun i => rnd.getD i 0 % 256)

/-- `random_get(buf_ptr, buf_len)`: the source calls
`crypto.getRandomValues(mem.slice(buf_ptr, buf_ptr + buf_len))` —
`Uint8Array.slice` COPIES the span, so the random bytes land in the
discarded copy and the guest memory is returned unchanged, with errno 0. -/
def random_get (mo : Option Mem) (rnd : List Nat) (buf_ptr buf_len : Nat) :
    Except JsError (Mem × Nat) :=
  match mo with
  | none => Except.error nullMemErr
  | some m =>
    let copy := sliceClamped m buf_ptr (buf_ptr + buf_len)
    let _filled := getRandomValues rnd copy
    Except.ok (m, 0)

/-- `proc_exit(code)`: throws `new Error("exit(" + code + ")")` — an
ordinary `Error`, not a distinguished exit class. -/
def proc_exit (code : Int) : Except JsError Unit :=
  Except.error (JsError.error ("exit(" ++ toString code ++ ")"))

/-! ## Observation helpers for the shim proofs -/

/-- Total packed size of a list of encoded strings: each encoding plus
its NUL terminator. -/
def totalSize (encs : List (List Nat)) : Nat :=
  (encs.map (fun e => e.length + 1)).sum

/-- Checks that memory holds the given iovec table at `iovs_ptr`: entry
`k` is the little-endian pair (pointer, length) at byte offset
`iovs_ptr + 8 * (i + k)`. -/
def iovTable (m : Mem) (iovs_ptr : Nat) : List (Nat × Nat) → Nat → Bool
  | [], _ => true
  | p :: rest, i =>
    decide (getUint32LE m (iovs_ptr + i * 8) = some p.1) &&
    decide (getUint32LE m (iovs_ptr + i * 8 + 4) = some p.2) &&
    iovTable m iovs_ptr rest (i + 1)

/-- Read back a NUL-terminated byte string starting at address `p`: the
bytes up to (excluding) the first zero byte, scanning to the end of
memory. -/
def readCString (m : Mem) (p : Nat) : List Nat :=
  (readBytes m p (m.size - p)).takeWhile (fun b => b ≠ 0)

/-! ## Memory-model lemmas -/

theorem writeBytes_size {m m' : Mem} {off : Nat} {bs : List Nat}
    (h : writeBytes m off bs = some m') : m'.size = m.size := by
  unfold writeBytes at h
  split at h
  · cases h; rfl
  · cases h

theorem writeBytes_bound {m m' : Mem} {off : Nat} {bs : List Nat}
    (h : writeBytes m off bs = some m') : off + bs.length ≤ m.size := by
  unfold writeBytes at h
  split at h
  · assumption
  · cases h

theorem writeBytes_byteAt {m m' : Mem} {off : Nat} {bs : List Nat}
    (h : writeBytes m off bs = some m') (a : Nat) :
    m'.byteAt a =
      if off ≤ a ∧ a < off + bs.length then bs.getD (a - off) 0 else m.byteAt a := by
  unfold writeBytes at h
  split at h
  · cases h; rfl
  · cases h

theorem writeBytes_isSome {m : Mem} {off : Nat} {bs : List Nat}
    (h : off + bs.length ≤ m.size) : ∃ m', writeBytes m off bs = some m' :=
  ⟨_, by unfold writeBytes; rw [if_pos h]⟩

theorem writeByteLenient_size (m : Mem) (i v : Nat) :
    (writeByteLenient m i v).size = m.size := by
  unfold writeByteLenient
  split <;> rfl

theorem writeByteLenient_byteAt (m : Mem) (i v a : Nat) :
    (writeByteLenient m i v).byteAt a =
      if i < m.size ∧ a = i then v else m.byteAt a := by
  unfold writeByteLenient
  split
  · rename_i h
    by_cases ha : a = i <;> simp [ha, h]
  · rename_i h
    simp [h]

theorem range_map_getD (l : List Nat) :
    (List.range l.length).map (fun j => l.getD j 0) = l := by
  induction l with
  | nil => simp
  | cons x t ih =>
    rw [List.length_cons, List.range_succ_eq_map, List.map_cons, List.map_map]
    have hcomp : ((fun j => (x :: t).getD j 0) ∘ Nat.succ) = (fun j => t.getD j 0) := rfl
    rw [hcomp, ih]
    rfl

theorem readBytes_congr {m1 m2 : Mem} (off len : Nat)
    (h : ∀ a, off ≤ a → a < off + len → m1.byteAt a = m2.byteAt a) :
    readBytes m1 off len = readBytes m2 off len := by
  unfold readBytes
  refine List.map_congr_left (fun j hj => ?_)
  have := List.mem_range.mp hj
  exact h (off + j) (by omega) (by omega)

theorem readBytes_split (m : Mem) (off n1 n2 : Nat) :
    readBytes m off (n1 + n2) = readBytes m off n1 ++ readBytes m (off + n1) n2 := by
  unfold readBytes
  rw [List.range_add, List.map_append, List.map_map]
  congr 1
  refine List.map_congr_left (fun j _ => ?_)
  simp [Function.comp, Nat.add_assoc]

theorem readBytes_writeBytes_self {m m' : Mem} {off : Nat} {bs : List Nat}
    (h : writeBytes m off bs = some m') : readBytes m' off bs.length = bs := by
  unfold readBytes
  have hpt : ∀ j ∈ List.range bs.length, m'.byteAt (off + j) = bs.getD j 0 := by
    intro j hj
    have hjl := List.mem_range.mp hj
    rw [writeBytes_byteAt h]
    rw [if_pos ⟨by omega, by omega⟩]
    congr 1
    omega
  rw [List.map_congr_left hpt]
  exact range_map_getD bs

theorem getUint32LE_after_set {m m' : Mem} {off v : Nat}
    (h : setUint32LE m off v = some m') :
    getUint32LE m' off = some (v % 4294967296) := by
  have h' : writeBytes m off (u32Bytes v) = some m' := h
  have hsize := writeBytes_size h'
  have hbound := writeBytes_bound h'
  have hlen : (u32Bytes v).length = 4 := rfl
  rw [hlen] at hbound
  have hb := writeBytes_byteAt h'
  unfold getUint32LE
  rw [if_pos (by omega : off + 4 ≤ m'.size)]
  rw [hb off, hb (off + 1), hb (off + 2), hb (off + 3)]
  rw [hlen]
  rw [if_pos ⟨by omega, by omega⟩, if_pos ⟨by omega, by omega⟩,
    if_pos ⟨by omega, by omega⟩, if_pos ⟨by omega, by omega⟩]
  have e0 : off - off = 0 := by omega
  have e1 : off + 1 - off = 1 := by omega
  have e2 : off + 2 - off = 2 := by omega
  have e3 : off + 3 - off = 3 := by omega
  rw [e0, e1, e2, e3]
  show some (v % 256 + 256 * (v / 256 % 256) + 65536 * (v / 65536 % 256)
    + 16777216 * (v / 16777216 % 256)) = some (v % 4294967296)
  congr 1
  omega

theorem takeWhile_append_zero (a t : List Nat) (ha : ∀ b ∈ a, b ≠ 0) :
    ((a ++ 0 :: t).takeWhile (fun b => b ≠ 0)) = a := by
  induction a with
  | nil => simp
  | cons x xs ih =>
    have hx : x ≠ 0 := ha x (by simp)
    simp only [List.cons_append, List.takeWhile_cons]
    rw [if_pos (by simpa using hx)]
    rw [ih (fun b hb => ha b (by simp [hb]))]

/-! ## Loop bookkeeping lemmas -/

@[simp] theorem countStartMain_nil : countStartMain [] = 0 := rfl

@[simp] theorem countStartMain_append (a b : List HostEvent) :
    countStartMain (a ++ b) = countStartMain a + countStartMain b := by
  simp [countStartMain, List.countP_append]

@[simp] theorem countStartMain_startMain_cons (l : List HostEvent) :
    countStartMain (HostEvent.startMain :: l) = countStartMain l + 1 := by
  simp [countStartMain, List.countP_cons]

@[simp] theorem countStartMain_tick_cons (l : List HostEvent) :
    countStartMain (HostEvent.tick :: l) = countStartMain l := by
  simp [countStartMain, List.countP_cons]

@[simp] theorem countStartMain_microtask_cons (l : List HostEvent) :
    countStartMain (HostEvent.microtask :: l) = countStartMain l := by
  simp [countStartMain, List.countP_cons]

@[simp] theorem countStartMain_sleep_cons (ms : Int) (l : List HostEvent) :
    countStartMain (HostEvent.sleep ms :: l) = countStartMain l := by
  simp [countStartMain, List.countP_cons]

@[simp] theorem countStartMain_spin_cons (ms : Int) (l : List HostEvent) :
    countStartMain (HostEvent.spin ms :: l) = countStartMain l := by
  simp [countStartMain, List.countP_cons]

theorem countStartMain_jsRunAsyncLoop (script : List (Except JsError Int)) :
    ∀ tr, countStartMain (jsRunAsyncLoop script tr).events = countStartMain tr := by
  induction script with
  | nil => intro tr; simp [jsRunAsyncLoop]
  | cons hd rest ih =>
    intro tr
    match hd with
    | .error e => simp [jsRunAsyncLoop]
    | .ok r =>
      simp only [jsRunAsyncLoop]
      by_cases h1 : r = -1
      · simp [h1]
      · by_cases h2 : r = 0
        · simp [h1, h2, ih]
        · by_cases h3 : r > 0
          · simp [h1, h2, h3, ih]
          · simp [h1, h2, h3, ih]

theorem countStartMain_jsRunSyncLoop (script : List (Except JsError Int)) :
    ∀ tr, countStartMain (jsRunSyncLoop script tr).events = countStartMain tr := by
  induction script with
  | nil => intro tr; simp [jsRunSyncLoop]
  | cons hd rest ih =>
    intro tr
    match hd with
    | .error e => simp [jsRunSyncLoop]
    | .ok r =>
      simp only [jsRunSyncLoop]
      by_cases h1 : r = -1
      · simp [h1]
      · by_cases h3 : r > 0
        · simp [h1, h3, ih]
        · simp [h1, h3, ih]

theorem countStartMain_goRunLoop (script : List (Except String Int)) :
    ∀ tr, countStartMain (goRunLoop script tr).events = countStartMain tr := by
  induction script with
  | nil => intro tr; simp [goRunLoop]
  | cons hd rest ih =>
    intro tr
    match hd with
    | .error e => simp [goRunLoop]
    | .ok r =>
      simp only [goRunLoop]
      by_cases h1 : r = -1
      · simp [h1]
      · by_cases h2 : r = 0
        · simp [h1, h2, ih]
        · by_cases h3 : r > 0
          · simp [h1, h2, h3, ih]
          · simp [h1, h2, h3, ih]

/-- Once `mainStarted` is set, no JS operation produces a `go_start_main`
invocation, and the flag stays set. -/
theorem execJsOp_true (op : JsOp) :
    (execJsOp true op).1 = true ∧ countStartMain (execJsOp true op).2 = 0 := by
  match op with
  | .startMain => simp [execJsOp, jsStartMain]
  | .runSync script =>
    refine ⟨rfl, ?_⟩
    simp [execJsOp, jsRunSync, jsStartMain, countStartMain_jsRunSyncLoop]
  | .runAsync script =>
    refine ⟨rfl, ?_⟩
    simp [execJsOp, jsRunAsync, jsStartMain, countStartMain_jsRunAsyncLoop]

theorem execJsOps_true (ops : List JsOp) :
    countStartMain (execJsOps true ops) = 0 := by
  induction ops with
  | nil => simp [execJsOps]
  | cons op rest ih =>
    have h := execJsOp_true op
    simp [execJsOps, h.2, h.1, ih]

/-- From a fresh instance, any single JS operation invokes `go_start_main`
at most once and leaves the flag set. -/
theorem execJsOp_false (op : JsOp) :
    (execJsOp false op).1 = true ∧ countStartMain (execJsOp false op).2 ≤ 1 := by
  match op with
  | .startMain => simp [execJsOp, jsStartMain]
  | .runSync script =>
    refine ⟨rfl, ?_⟩
    simp [execJsOp, jsRunSync, jsStartMain, countStartMain_jsRunSyncLoop]
  | .runAsync script =>
    refine ⟨rfl, ?_⟩
    simp [execJsOp, jsRunAsync, jsStartMain, countStartMain_jsRunAsyncLoop]

/-- Every Go operation invokes `go_start_main` exactly once. -/
theorem countStartMain_execGoOp (op : GoOp) : countStartMain (execGoOp op) = 1 := by
  match op with
  | .startMain r => simp [execGoOp, goStartMain]
  | .run r script =>
    match r with
    | .error e => simp [execGoOp, goRun, goStartMain]
    | .ok _ => simp [execGoOp, goRun, goStartMain, countStartMain_goRunLoop]
  | .runWithCallback r script =>
    match r with
    | .error e => simp [execGoOp, goRunWithCallback, goStartMain]
    | .ok _ =>
      simp [execGoOp, goRunWithCallback, goStartMain, countStartMain_goRunLoop]

/-! ## Tick-count bookkeeping -/

@[simp] theorem countTicks_nil : countTicks [] = 0 := rfl

@[simp] theorem countTicks_append (a b : List HostEvent) :
    countTicks (a ++ b) = countTicks a + countTicks b := by
  simp [countTicks, List.countP_append]

@[simp] theorem countTicks_tick_cons (l : List HostEvent) :
    countTicks (HostEvent.tick :: l) = countTicks l + 1 := by
  simp [countTicks, List.countP_cons]

@[simp] theorem countTicks_startMain_cons (l : List HostEvent) :
    countTicks (HostEvent.startMain :: l) = countTicks l := by
  simp [countTicks, List.countP_cons]

@[simp] theorem countTicks_microtask_cons (l : List HostEvent) :
    countTicks (HostEvent.microtask :: l) = countTicks l := by
  simp [countTicks, List.countP_cons]

@[simp] theorem countTicks_sleep_cons (ms : Int) (l : List HostEvent) :
    countTicks (HostEvent.sleep ms :: l) = countTicks l := by
  simp [countTicks, List.countP_cons]

@[simp] theorem countTicks_spin_cons (ms : Int) (l : List HostEvent) :
    countTicks (HostEvent.spin ms :: l) = countTicks l := by
  simp [countTicks, List.countP_cons]

/-- After `n` Ready ticks, a tick that throws `e` ends `runAsync` with
outcome `threw e` after exactly `n + 1` tick invocations, regardless of
what the guest would have produced later. -/
theorem jsRunAsyncLoop_ready_then_throw (e : JsError)
    (rest : List (Except JsError Int)) (n : Nat) :
    ∀ tr, (jsRunAsyncLoop (List.replicate n (Except.ok 0) ++
        Except.error e :: rest) tr).outcome = RunOutcome.threw e ∧
      countTicks (jsRunAsyncLoop (List.replicate n (Except.ok 0) ++
        Except.error e :: rest) tr).events = countTicks tr + n + 1 := by
  induction n with
  | zero => intro tr; simp [jsRunAsyncLoop]
  | succ k ih =>
    intro tr
    have step : jsRunAsyncLoop (List.replicate (k + 1) (Except.ok 0) ++
        Except.error e :: rest) tr =
        jsRunAsyncLoop (List.replicate k (Except.ok 0) ++ Except.error e :: rest)
          ((tr ++ [HostEvent.tick]) ++ [HostEvent.microtask]) := by
      simp [List.replicate_succ, jsRunAsyncLoop]
    rw [step]
    refine ⟨(ih _).1, ?_⟩
    rw [(ih _).2]
    simp
    omega

/-! ## Packed-string lemmas -/

@[simp] theorem totalSize_nil : totalSize [] = 0 := rfl

@[simp] theorem totalSize_cons (e : List Nat) (t : List (List Nat)) :
    totalSize (e :: t) = e.length + 1 + totalSize t := by
  simp [totalSize]

theorem totalSize_take_bound (encs : List (List Nat)) :
    ∀ k (hk : k < encs.length),
      totalSize (encs.take k) + (encs.get ⟨k, hk⟩).length + 1 ≤ totalSize encs := by
  induction encs with
  | nil => intro k hk; simp at hk
  | cons e rest ih =>
    intro k hk
    match k with
    | 0 => simp
    | k' + 1 =>
      have hk' : k' < rest.length := by simpa using hk
      have := ih k' hk'
      simp only [List.take_succ_cons, totalSize_cons, List.get_cons_succ]
      omega

theorem readBytes_one (m : Mem) (off : Nat) :
    readBytes m off 1 = [m.byteAt off] := by
  simp [readBytes, List.range_succ]

theorem getUint32LE_congr {m1 m2 : Mem} (off : Nat) (hs : m1.size = m2.size)
    (hb : ∀ a, off ≤ a → a < off + 4 → m1.byteAt a = m2.byteAt a) :
    getUint32LE m1 off = getUint32LE m2 off := by
  unfold getUint32LE
  rw [hs]
  split
  · rw [hb off (Nat.le_refl _) (by omega), hb (off + 1) (by omega) (by omega),
      hb (off + 2) (by omega) (by omega), hb (off + 3) (by omega) (by omega)]
  · rfl

/-- Reading back a NUL-terminated string: if memory holds the NUL-free
bytes `e` at `p` followed by a zero byte (all inside the buffer), the
C-string read at `p` is exactly `e`. -/
theorem readCString_of_packed {m : Mem} {p : Nat} {e : List Nat}
    (hread : readBytes m p e.length = e) (hnul : m.byteAt (p + e.length) = 0)
    (hsize : p + e.length + 1 ≤ m.size) (hz : (0 : Nat) ∉ e) :
    readCString m p = e := by
  unfold readCString
  have hsplit : m.size - p = e.length + (1 + (m.size - p - e.length - 1)) := by omega
  rw [hsplit, readBytes_split, readBytes_split, readBytes_one, hread, hnul]
  have hz' : ∀ b ∈ e, b ≠ 0 := fun b hb h0 => hz (h0 ▸ hb)
  exact takeWhile_append_zero e _ hz'

/-! ## `fd_write` lemmas -/

theorem sliceClamped_eq_readBytes (m : Mem) (a l : Nat) (h : a + l ≤ m.size) :
    sliceClamped m a (a + l) = readBytes m a l := by
  unfold sliceClamped
  have h1 : min a m.size = a := by omega
  have h2 : min (a + l) m.size = a + l := by omega
  rw [h1, h2]
  congr 1
  omega

/-- Unrolled characterisation of the `fd_write` iovec loop when every
table entry reads back and every data span is in bounds: it accumulates
the per-span decodings and the requested lengths. -/
theorem fdWriteLoop_spec (m : Mem) (iovs_ptr : Nat) (iovs : List (Nat × Nat)) :
    ∀ (i : Nat) (text : List Nat) (written : Nat),
      iovTable m iovs_ptr iovs i = true →
      (∀ p ∈ iovs, p.1 + p.2 ≤ m.size) →
      fdWriteLoop m iovs_ptr iovs.length i text written =
        Except.ok
          (text ++ (iovs.map (fun p => utf8Decode (readBytes m p.1 p.2))).flatten,
           written + (iovs.map (fun p => p.2)).sum) := by
  induction iovs with
  | nil =>
    intro i text written _ _
    simp [fdWriteLoop]
  | cons p rest ih =>
    intro i text written htab hspan
    simp only [iovTable, Bool.and_eq_true, decide_eq_true_eq] at htab
    obtain ⟨⟨h1, h2⟩, h3⟩ := htab
    have hsp : p.1 + p.2 ≤ m.size := hspan p (by simp)
    rw [List.length_cons]
    show (do
      let ptr ← orRange (getUint32LE m (iovs_ptr + i * 8))
      let len ← orRange (getUint32LE m (iovs_ptr + i * 8 + 4))
      let bytes := sliceClamped m ptr (ptr + len)
      fdWriteLoop m iovs_ptr rest.length (i + 1)
        (text ++ utf8Decode bytes) (written + len)) = _
    rw [h1, h2]
    show fdWriteLoop m iovs_ptr rest.length (i + 1)
      (text ++ utf8Decode (sliceClamped m p.1 (p.1 + p.2))) (written + p.2) = _
    rw [sliceClamped_eq_readBytes m p.1 p.2 hsp]
    rw [ih (i + 1) _ _ h3 (fun q hq => hspan q (by simp [hq]))]
    simp [List.append_assoc, Nat.add_assoc]

/-- If every chunk survives the decode-reencode round trip, encoding the
concatenated decodings recovers the concatenated chunks. -/
theorem encodeUtf8_flatten_decode (ls : List (List Nat))
    (h : ∀ s ∈ ls, encodeUtf8 (utf8Decode s) = s) :
    encodeUtf8 ((ls.map utf8Decode).flatten) = ls.flatten := by
  induction ls with
  | nil => simp [encodeUtf8]
  | cons x t ih =>
    simp only [List.map_cons, List.flatten_cons]
    rw [encodeUtf8_append, h x (by simp), ih (fun s hs => h s (by simp [hs]))]

/-! ## The `args_get` / `environ_get` packing loop -/

/-- Full characterisation of `vecGetLoop` under a well-formed layout:
the pointer-table slots from index `i` end at or before `bufOffset`, and
the packed data fits both in memory and under `2^32` (so the stored
32-bit offsets read back exactly).  The loop succeeds; memory outside
the written regions is untouched; slot `k` holds the packed offset of
element `k`; and each element's bytes sit at its offset, NUL-terminated. -/
theorem vecGetLoop_spec (table_ptr : Nat) (encs : List (List Nat)) :
    ∀ (m : Mem) (i bufOffset : Nat),
      table_ptr + 4 * (i + encs.length) ≤ bufOffset →
      bufOffset + totalSize encs ≤ m.size →
      bufOffset + totalSize encs ≤ 4294967296 →
      ∃ m', vecGetLoop table_ptr m encs i bufOffset = Except.ok m' ∧
        m'.size = m.size ∧
        (∀ a, (a < table_ptr + 4 * i ∨
               (table_ptr + 4 * (i + encs.length) ≤ a ∧ a < bufOffset) ∨
               bufOffset + totalSize encs ≤ a) →
          m'.byteAt a = m.byteAt a) ∧
        (∀ k, (hk : k < encs.length) →
          getUint32LE m' (table_ptr + 4 * (i + k)) =
            some (bufOffset + totalSize (encs.take k)) ∧
          readBytes m' (bufOffset + totalSize (encs.take k))
              (encs.get ⟨k, hk⟩).length = encs.get ⟨k, hk⟩ ∧
          m'.byteAt (bufOffset + totalSize (encs.take k) +
            (encs.get ⟨k, hk⟩).length) = 0) := by
  induction encs with
  | nil =>
    intro m i bufOffset h1 h2 h3
    exact ⟨m, rfl, rfl, fun a _ => rfl, fun k hk => absurd hk (by simp)⟩
  | cons e rest ih =>
    intro m i bufOffset h1 h2 h3
    rw [List.length_cons] at h1
    rw [totalSize_cons] at h2 h3
    have hu : (u32Bytes bufOffset).length = 4 := rfl
    -- write the pointer-table slot for element i
    obtain ⟨m1, hw1⟩ := @writeBytes_isSome m (table_ptr + 4 * i)
      (u32Bytes bufOffset) (by rw [hu]; omega)
    have hw1' : setUint32LE m (table_ptr + 4 * i) bufOffset = some m1 := hw1
    have hs1 : m1.size = m.size := writeBytes_size hw1
    -- copy the element bytes
    obtain ⟨m2, hw2⟩ := @writeBytes_isSome m1 bufOffset e (by rw [hs1]; omega)
    have hs2 : m2.size = m1.size := writeBytes_size hw2
    -- the NUL terminator (lenient indexed store, in bounds here)
    have hs3 : (writeByteLenient m2 (bufOffset + e.length) 0).size = m2.size :=
      writeByteLenient_size m2 (bufOffset + e.length) 0
    have hnulIn : bufOffset + e.length < m2.size := by omega
    -- induction on the remaining elements
    obtain ⟨m', hrun, hsize', hpres', hks'⟩ :=
      ih (writeByteLenient m2 (bufOffset + e.length) 0) (i + 1)
        (bufOffset + e.length + 1)
        (by omega) (by rw [hs3]; omega) (by omega)
    have hsize : m'.size = m.size := by rw [hsize', hs3]; omega
    refine ⟨m', ?_, hsize, ?_, ?_⟩
    · show (do
        let m1x ← orRange (setUint32LE m (table_ptr + 4 * i) bufOffset)
        let m2x ← orRange (writeBytes m1x bufOffset e)
        let m3x := writeByteLenient m2x (bufOffset + e.length) 0
        vecGetLoop table_ptr m3x rest (i + 1) (bufOffset + e.length + 1)) =
          Except.ok m'
      rw [hw1']
      show (do
        let m2x ← orRange (writeBytes m1 bufOffset e)
        let m3x := writeByteLenient m2x (bufOffset + e.length) 0
        vecGetLoop table_ptr m3x rest (i + 1) (bufOffset + e.length + 1)) =
          Except.ok m'
      rw [hw2]
      exact hrun
    · -- preservation outside all written regions
      intro a ha
      rw [List.length_cons, totalSize_cons] at ha
      have hstep : m'.byteAt a =
          (writeByteLenient m2 (bufOffset + e.length) 0).byteAt a := by
        refine hpres' a ?_
        omega
      have h3a : (writeByteLenient m2 (bufOffset + e.length) 0).byteAt a =
          m2.byteAt a := by
        rw [writeByteLenient_byteAt]
        refine if_neg ?_
        rintro ⟨hlt, haeq⟩
        omega
      have h2a : m2.byteAt a = m1.byteAt a := by
        rw [writeBytes_byteAt hw2]
        refine if_neg ?_
        rintro ⟨hge, hlt⟩
        omega
      have h1a : m1.byteAt a = m.byteAt a := by
        rw [writeBytes_byteAt hw1, hu]
        refine if_neg ?_
        rintro ⟨hge, hlt⟩
        omega
      rw [hstep, h3a, h2a, h1a]
    · -- the per-element conclusions
      intro k hk
      match k with
      | 0 =>
        have hbytes01 : ∀ a, table_ptr + 4 * i ≤ a → a < table_ptr + 4 * i + 4 →
            m'.byteAt a = m1.byteAt a := by
          intro a hal hau
          have hstep : m'.byteAt a =
              (writeByteLenient m2 (bufOffset + e.length) 0).byteAt a :=
            hpres' a (Or.inl (by omega))
          have h3a : (writeByteLenient m2 (bufOffset + e.length) 0).byteAt a =
              m2.byteAt a := by
            rw [writeByteLenient_byteAt]
            refine if_neg ?_
            rintro ⟨hlt, haeq⟩
            omega
          have h2a : m2.byteAt a = m1.byteAt a := by
            rw [writeBytes_byteAt hw2]
            refine if_neg ?_
            rintro ⟨hge, hlt⟩
            omega
          rw [hstep, h3a, h2a]
        refine ⟨?_, ?_, ?_⟩
        · show getUint32LE m' (table_ptr + 4 * (i + 0)) = some bufOffset
          have hi0 : i + 0 = i := rfl
          rw [hi0]
          have hcongr : getUint32LE m' (table_ptr + 4 * i) =
              getUint32LE m1 (table_ptr + 4 * i) :=
            getUint32LE_congr _ (by omega) hbytes01
          have hget := getUint32LE_after_set hw1'
          have hmod : bufOffset % 4294967296 = bufOffset := Nat.mod_eq_of_lt (by omega)
          rw [hcongr, hget, hmod]
        · have hbytesData : ∀ a, bufOffset ≤ a → a < bufOffset + e.length →
              m'.byteAt a = m2.byteAt a := by
            intro a hal hau
            have hstep : m'.byteAt a =
                (writeByteLenient m2 (bufOffset + e.length) 0).byteAt a :=
              hpres' a (Or.inr (Or.inl (by omega)))
            have h3a : (writeByteLenient m2 (bufOffset + e.length) 0).byteAt a =
                m2.byteAt a := by
              rw [writeByteLenient_byteAt]
              refine if_neg ?_
              rintro ⟨hlt, haeq⟩
              omega
            rw [hstep, h3a]
          show readBytes m' bufOffset e.length = e
          rw [readBytes_congr bufOffset e.length hbytesData]
          exact readBytes_writeBytes_self hw2
        · show m'.byteAt (bufOffset + e.length) = 0
          have hstep : m'.byteAt (bufOffset + e.length) =
              (writeByteLenient m2 (bufOffset + e.length) 0).byteAt
                (bufOffset + e.length) :=
            hpres' _ (Or.inr (Or.inl (by omega)))
          rw [hstep, writeByteLenient_byteAt, if_pos ⟨hnulIn, rfl⟩]
      | k' + 1 =>
        have hk' : k' < rest.length := by simpa using hk
        obtain ⟨hp, hr, hn⟩ := hks' k' hk'
        have e1 : i + (k' + 1) = (i + 1) + k' := by omega
        have e2 : bufOffset + totalSize ((e :: rest).take (k' + 1)) =
            (bufOffset + e.length + 1) + totalSize (rest.take k') := by
          simp only [List.take_succ_cons, totalSize_cons]
          omega
        refine ⟨?_, ?_, ?_⟩
        · rw [e1, e2]; exact hp
        · show readBytes m' (bufOffset + totalSize ((e :: rest).take (k' + 1)))
              (rest.get ⟨k', hk'⟩).length = rest.get ⟨k', hk'⟩
          rw [e2]; exact hr
        · show m'.byteAt (bufOffset + totalSize ((e :: rest).take (k' + 1)) +
              (rest.get ⟨k', hk'⟩).length) = 0
          rw [e2]; exact hn

/-- Characterisation of `vecSizesGet` (the shared body of
`args_sizes_get` / `environ_sizes_get`) for disjoint, in-bounds output
pointers: it stores the element count and the total packed size, both
reading back exactly when below `2^32`. -/
theorem vecSizesGet_spec (m : Mem) (encs : List (List Nat))
    (count_ptr bufsize_ptr : Nat)
    (h1 : count_ptr + 4 ≤ bufsize_ptr) (h2 : bufsize_ptr + 4 ≤ m.size)
    (hc : encs.length < 4294967296) (ht : totalSize encs < 4294967296) :
    ∃ m2, vecSizesGet (some m) encs count_ptr bufsize_ptr = Except.ok (m2, 0) ∧
      m2.size = m.size ∧
      getUint32LE m2 count_ptr = some encs.length ∧
      getUint32LE m2 bufsize_ptr = some (totalSize encs) := by
  have hu1 : (u32Bytes encs.length).length = 4 := rfl
  have hu2 : (u32Bytes (totalSize encs)).length = 4 := rfl
  obtain ⟨m1, hw1⟩ := @writeBytes_isSome m count_ptr (u32Bytes encs.length)
    (by rw [hu1]; omega)
  have hw1' : setUint32LE m count_ptr encs.length = some m1 := hw1
  have hs1 : m1.size = m.size := writeBytes_size hw1
  obtain ⟨m2, hw2⟩ := @writeBytes_isSome m1 bufsize_ptr
    (u32Bytes (totalSize encs)) (by rw [hu2, hs1]; omega)
  have hw2' : setUint32LE m1 bufsize_ptr (totalSize encs) = some m2 := hw2
  have hs2 : m2.size = m1.size := writeBytes_size hw2
  refine ⟨m2, ?_, by rw [hs2, hs1], ?_, ?_⟩
  · show (do
      let m1x ← orRange (setUint32LE m count_ptr encs.length)
      let m2x ← orRange (setUint32LE m1x bufsize_ptr
        ((encs.map (fun e : List Nat => e.length + 1)).sum))
      Except.ok (m2x, 0)) = _
    rw [hw1']
    show (do
      let m2x ← orRange (setUint32LE m1 bufsize_ptr (totalSize encs))
      Except.ok (m2x, 0)) = _
    rw [hw2']
    rfl
  · have hb : ∀ a, count_ptr ≤ a → a < count_ptr + 4 →
        m2.byteAt a = m1.byteAt a := by
      intro a hal hau
      rw [writeBytes_byteAt hw2]
      refine if_neg ?_
      rintro ⟨hge, hlt⟩
      omega
    have hcongr := getUint32LE_congr count_ptr hs2 hb
    rw [hcongr, getUint32LE_after_set hw1', Nat.mod_eq_of_lt hc]
  · rw [getUint32LE_after_set hw2', Nat.mod_eq_of_lt ht]

/-! ## No-throw lemmas for the shim handlers -/

theorem getUint32LE_isSome {m : Mem} {off : Nat} (h : off + 4 ≤ m.size) :
    ∃ v, getUint32LE m off = some v :=
  ⟨_, by unfold getUint32LE; rw [if_pos h]⟩

theorem vecSizesGet_ok (m : Mem) (encs : List (List Nat)) (p q : Nat)
    (hp : p + 4 ≤ m.size) (hq : q + 4 ≤ m.size) :
    ∃ r, vecSizesGet (some m) encs p q = Except.ok r := by
  obtain ⟨m1, hw1⟩ := @writeBytes_isSome m p (u32Bytes encs.length)
    (by rw [show (u32Bytes encs.length).length = 4 from rfl]; omega)
  have hw1' : setUint32LE m p encs.length = some m1 := hw1
  have hs1 : m1.size = m.size := writeBytes_size hw1
  obtain ⟨m2, hw2⟩ := @writeBytes_isSome m1 q (u32Bytes (totalSize encs))
    (by rw [show (u32Bytes (totalSize encs)).length = 4 from rfl, hs1]; omega)
  have hw2' : setUint32LE m1 q (totalSize encs) = some m2 := hw2
  refine ⟨(m2, 0), ?_⟩
  show (do
    let m1x ← orRange (setUint32LE m p encs.length)
    let m2x ← orRange (setUint32LE m1x q
      ((encs.map (fun e : List Nat => e.length + 1)).sum))
    Except.ok (m2x, 0)) = _
  rw [hw1']
  show (do
    let m2x ← orRange (setUint32LE m1 q (totalSize encs))
    Except.ok (m2x, 0)) = _
  rw [hw2']
  rfl

theorem clock_time_get_ok (m : Mem) (clock_id nowMs perfNs tp : Nat)
    (h : tp + 8 ≤ m.size) :
    ∃ r, clock_time_get (some m) clock_id nowMs perfNs tp = Except.ok r := by
  obtain ⟨m1, hw⟩ := @writeBytes_isSome m tp
    (u64Bytes (if clock_id = 0 then nowMs * 1000000 else perfNs))
    (by rw [show (u64Bytes (if clock_id = 0 then nowMs * 1000000 else perfNs)).length
          = 8 from rfl]
        omega)
  have hw' : setUint64LE m tp (if clock_id = 0 then nowMs * 1000000 else perfNs) =
      some m1 := hw
  refine ⟨(m1, 0), ?_⟩
  show (do
    let mx ← orRange (setUint64LE m tp
      (if clock_id = 0 then nowMs * 1000000 else perfNs))
    Except.ok (mx, 0)) = _
  rw [hw']
  rfl

theorem fdWriteLoop_ok (m : Mem) (iovs_ptr : Nat) :
    ∀ (count i : Nat) (text : List Nat) (written : Nat),
      iovs_ptr + (i + count) * 8 ≤ m.size →
      ∃ tw, fdWriteLoop m iovs_ptr count i text written = Except.ok tw := by
  intro count
  induction count with
  | zero => exact fun i text written _ => ⟨_, rfl⟩
  | succ c ih =>
    intro i text written h
    obtain ⟨v1, hv1⟩ := @getUint32LE_isSome m (iovs_ptr + i * 8) (by omega)
    obtain ⟨v2, hv2⟩ := @getUint32LE_isSome m (iovs_ptr + i * 8 + 4) (by omega)
    obtain ⟨tw, htw⟩ := ih (i + 1)
      (text ++ utf8Decode (sliceClamped m v1 (v1 + v2))) (written + v2)
      (by omega)
    refine ⟨tw, ?_⟩
    show (do
      let ptr ← orRange (getUint32LE m (iovs_ptr + i * 8))
      let len ← orRange (getUint32LE m (iovs_ptr + i * 8 + 4))
      let bytes := sliceClamped m ptr (ptr + len)
      fdWriteLoop m iovs_ptr c (i + 1) (text ++ utf8Decode bytes)
        (written + len)) = _
    rw [hv1]
    show (do
      let len ← orRange (getUint32LE m (iovs_ptr + i * 8 + 4))
      fdWriteLoop m iovs_ptr c (i + 1)
        (text ++ utf8Decode (sliceClamped m v1 (v1 + len))) (written + len)) = _
    rw [hv2]
    exact htw

theorem fd_write_ok (m : Mem) (fd iovs_ptr iovs_len nwritten_ptr : Nat)
    (h1 : iovs_ptr + iovs_len * 8 ≤ m.size) (h2 : nwritten_ptr + 4 ≤ m.size) :
    ∃ r, fd_write (some m) fd iovs_ptr iovs_len nwritten_ptr = Except.ok r := by
  obtain ⟨⟨text, written⟩, htw⟩ := fdWriteLoop_ok m iovs_ptr iovs_len 0 [] 0
    (by omega)
  obtain ⟨mw, hww⟩ := @writeBytes_isSome m nwritten_ptr (u32Bytes written)
    (by rw [show (u32Bytes written).length = 4 from rfl]; omega)
  have hww' : setUint32LE m nwritten_ptr written = some mw := hww
  refine ⟨(mw, 0, (if fd = 1 then text else []), (if fd = 2 then text else [])), ?_⟩
  show (do
    let (t, w) ← fdWriteLoop m iovs_ptr iovs_len 0 [] 0
    let toStdout := if fd = 1 then t else []
    let toStderr := if fd = 2 then t else []
    let mx ← orRange (setUint32LE m nwritten_ptr w)
    Except.ok (mx, 0, toStdout, toStderr)) = _
  rw [htw]
  show (do
    let mx ← orRange (setUint32LE m nwritten_ptr written)
    Except.ok (mx, 0, (if fd = 1 then text else []),
      (if fd = 2 then text else []))) = _
  rw [hww']
  rfl

theorem fd_fdstat_get_ok (m : Mem) (fd stat_ptr : Nat)
    (h : stat_ptr + 24 ≤ m.size) :
    ∃ r, fd_fdstat_get (some m) fd stat_ptr = Except.ok r := by
  obtain ⟨m1, hw1⟩ := @writeBytes_isSome m stat_ptr
    [(if fd ≤ 2 then 2 else 6) % 256]
    (by rw [show [(if fd ≤ 2 then (2 : Nat) else 6) % 256].length = 1 from rfl]
        omega)
  have hw1' : setUint8 m stat_ptr (if fd ≤ 2 then 2 else 6) = some m1 := hw1
  have hs1 : m1.size = m.size := writeBytes_size hw1
  obtain ⟨m2, hw2⟩ := @writeBytes_isSome m1 (stat_ptr + 2) [0 % 256, 0 / 256 % 256]
    (by rw [show [(0 : Nat) % 256, 0 / 256 % 256].length = 2 from rfl, hs1]
        omega)
  have hw2' : setUint16LE m1 (stat_ptr + 2) 0 = some m2 := hw2
  have hs2 : m2.size = m1.size := writeBytes_size hw2
  obtain ⟨m3, hw3⟩ := @writeBytes_isSome m2 (stat_ptr + 8)
    (u64Bytes 0xFFFFFFFFFFFFFFFF)
    (by rw [show (u64Bytes 0xFFFFFFFFFFFFFFFF).length = 8 from rfl, hs2, hs1]
        omega)
  have hw3' : setUint64LE m2 (stat_ptr + 8) 0xFFFFFFFFFFFFFFFF = some m3 := hw3
  have hs3 : m3.size = m2.size := writeBytes_size hw3
  obtain ⟨m4, hw4⟩ := @writeBytes_isSome m3 (stat_ptr + 16)
    (u64Bytes 0xFFFFFFFFFFFFFFFF)
    (by rw [show (u64Bytes 0xFFFFFFFFFFFFFFFF).length = 8 from rfl, hs3, hs2, hs1]
        omega)
  have hw4' : setUint64LE m3 (stat_ptr + 16) 0xFFFFFFFFFFFFFFFF = some m4 := hw4
  refine ⟨(m4, 0), ?_⟩
  show (do
    let m1x ← orRange (setUint8 m stat_ptr (if fd ≤ 2 then 2 else 6))
    let m2x ← orRange (setUint16LE m1x (stat_ptr + 2) 0)
    let m3x ← orRange (setUint64LE m2x (stat_ptr + 8) 0xFFFFFFFFFFFFFFFF)
    let m4x ← orRange (setUint64LE m3x (stat_ptr + 16) 0xFFFFFFFFFFFFFFFF)
    Except.ok (m4x, 0)) = _
  rw [hw1']
  show (do
    let m2x ← orRange (setUint16LE m1 (stat_ptr + 2) 0)
    let m3x ← orRange (setUint64LE m2x (stat_ptr + 8) 0xFFFFFFFFFFFFFFFF)
    let m4x ← orRange (setUint64LE m3x (stat_ptr + 16) 0xFFFFFFFFFFFFFFFF)
    Except.ok (m4x, 0)) = _
  rw [hw2']
  show (do
    let m3x ← orRange (setUint64LE m2 (stat_ptr + 8) 0xFFFFFFFFFFFFFFFF)
    let m4x ← orRange (setUint64LE m3x (stat_ptr + 16) 0xFFFFFFFFFFFFFFFF)
    Except.ok (m4x, 0)) = _
  rw [hw3']
  show (do
    let m4x ← orRange (setUint64LE m3 (stat_ptr + 16) 0xFFFFFFFFFFFFFFFF)
    Except.ok (m4x, 0)) = _
  rw [hw4']
  rfl

theorem vecGet_ok (m : Mem) (encs : List (List Nat)) (table_ptr buf_ptr : Nat)
    (h1 : table_ptr + 4 * encs.length ≤ buf_ptr)
    (h2 : buf_ptr + totalSize encs ≤ m.size)
    (h3 : buf_ptr + totalSize encs ≤ 4294967296) :
    ∃ r, vecGet (some m) encs table_ptr buf_ptr = Except.ok r := by
  obtain ⟨m', hrun, -, -, -⟩ := vecGetLoop_spec table_ptr encs m 0 buf_ptr
    (by omega) h2 h3
  refine ⟨(m', 0), ?_⟩
  show (do
    let mx ← vecGetLoop table_ptr m encs 0 buf_ptr
    Except.ok (mx, 0)) = _
  rw [hrun]
  rfl

/-! ## Claim C1 — handling of negative tick results other than `-1` -/

/-- C1, counterexample: with tick script `[-2, -1]` both `Run` (Go) and
`runAsync` (JS) complete successfully in the Idle state after invoking
`go_tick` twice — the `-2` is not treated as a protocol violation: no
Faulted transition, no error surfaced, and `go_tick` IS invoked again. -/
theorem C1_cex_neg_two_not_protocol_violation :
    goRun (Except.ok ()) [Except.ok (-2), Except.ok (-1)] =
      ⟨RunOutcome.idle, [HostEvent.startMain, HostEvent.tick, HostEvent.tick]⟩ ∧
    (jsRunAsync false [Except.ok (-2), Except.ok (-1)]).2 =
      ⟨RunOutcome.idle, [HostEvent.startMain, HostEvent.tick, HostEvent.tick]⟩ := by
  decide

/-- C1 (amended): a tick result `r < -1` matches no branch of any loop:
`Run`/`RunWithCallback` (Go), `runAsync` and `runSync` (JS) all fall
through and re-invoke `go_tick` immediately — no Faulted transition, no
error, no suspension. -/
theorem C1_negative_tick_falls_through (r : Int)
    (grest : List (Except String Int)) (jrest krest : List (Except JsError Int))
    (tra trb trc : List HostEvent) (h : r < -1) :
    goRunLoop (Except.ok r :: grest) tra = goRunLoop grest (tra ++ [HostEvent.tick]) ∧
    jsRunAsyncLoop (Except.ok r :: jrest) trb =
      jsRunAsyncLoop jrest (trb ++ [HostEvent.tick]) ∧
    jsRunSyncLoop (Except.ok r :: krest) trc =
      jsRunSyncLoop krest (trc ++ [HostEvent.tick]) := by
  have h1 : ¬(r = -1) := by omega
  have h2 : ¬(r = 0) := by omega
  have h3 : ¬(r > 0) := by omega
  refine ⟨?_, ?_, ?_⟩
  · simp only [goRunLoop]; simp [h1, h2, h3]
  · simp only [jsRunAsyncLoop]; simp [h1, h2, h3]
  · simp only [jsRunSyncLoop]; simp [h1, h3]

/-- Witness for `C1_negative_tick_falls_through` at `r = -2`. -/
theorem C1_negative_tick_falls_through_witness :
    goRunLoop [Except.ok (-2), Except.ok (-1)] [] =
      goRunLoop [Except.ok (-1)] ([] ++ [HostEvent.tick]) ∧
    jsRunAsyncLoop [Except.ok (-2), Except.ok (-1)] [] =
      jsRunAsyncLoop [Except.ok (-1)] ([] ++ [HostEvent.tick]) ∧
    jsRunSyncLoop [Except.ok (-2), Except.ok (-1)] [] =
      jsRunSyncLoop [Except.ok (-1)] ([] ++ [HostEvent.tick]) :=
  C1_negative_tick_falls_through (-2) [Except.ok (-1)] [Except.ok (-1)]
    [Except.ok (-1)] [] [] [] (by decide)

/-! ## Claim C2 — the canonical tick sequence `[0, 0, 5, -1]` -/

/-- C2: with tick script `[0, 0, 5, -1]`, `Run` (Go) and `runAsync` (JS)
invoke `go_tick` exactly four times, re-invoke immediately after each `0`
(with a microtask yield in JS), suspend 5 ms after the `5`, and after the
`-1` terminate successfully in the Idle state with no further ticks. -/
theorem C2_tick_sequence_0_0_5_idle :
    goRun (Except.ok ()) [Except.ok 0, Except.ok 0, Except.ok 5, Except.ok (-1)] =
      ⟨RunOutcome.idle,
        [HostEvent.startMain, HostEvent.tick, HostEvent.tick, HostEvent.tick,
         HostEvent.sleep 5, HostEvent.tick]⟩ ∧
    (jsRunAsync false [Except.ok 0, Except.ok 0, Except.ok 5, Except.ok (-1)]).2 =
      ⟨RunOutcome.idle,
        [HostEvent.startMain, HostEvent.tick, HostEvent.microtask, HostEvent.tick,
         HostEvent.microtask, HostEvent.tick, HostEvent.sleep 5, HostEvent.tick]⟩ ∧
    countTicks (goRun (Except.ok ())
      [Except.ok 0, Except.ok 0, Except.ok 5, Except.ok (-1)]).events = 4 ∧
    countTicks (jsRunAsync false
      [Except.ok 0, Except.ok 0, Except.ok 5, Except.ok (-1)]).2.events = 4 := by
  decide

/-! ## Claim C3 — export validation at instantiation -/

/-- C3, counterexample: a module providing the three function exports but
NO linear-memory export instantiates successfully in both harnesses (and
the initializer is invoked) — missing `memory` does not fail with a
distinct named error. -/
theorem C3_cex_missing_memory_not_validated :
    (createReactor ⟨false, true, true, true⟩).result = Except.ok () ∧
    (createReactor ⟨false, true, true, true⟩).initializeCalled = true ∧
    (goNewReactor ⟨false, true, true, true⟩ (Except.ok ())).result = Except.ok () ∧
    (goNewReactor ⟨false, true, true, true⟩ (Except.ok ())).initializeCalled = true :=
  ⟨rfl, rfl, rfl, rfl⟩

/-- C3 (amended): for each of the three required FUNCTION exports
(`_initialize`, `go_start_main`, `go_tick`), a module lacking that export
fails instantiation in both harnesses with a distinct error naming exactly
that export, and the initializer is never invoked; the linear-memory
export is not validated. -/
theorem C3_function_export_validation (e : ModuleExports)
    (initResult : Except String Unit) :
    (e.hasInitialize = false →
      createReactor e =
        ⟨.error "Module does not export _initialize (not a WASI reactor?)", false⟩ ∧
      goNewReactor e initResult =
        ⟨.error "module does not export _initialize (not a WASI reactor?)", false⟩) ∧
    (e.hasInitialize = true → e.hasStartMain = false →
      createReactor e =
        ⟨.error "Module does not export go_start_main (not built with modified Go runtime?)",
          false⟩ ∧
      goNewReactor e initResult =
        ⟨.error "module does not export go_start_main (not built with modified Go runtime?)",
          false⟩) ∧
    (e.hasInitialize = true → e.hasStartMain = true → e.hasTick = false →
      createReactor e =
        ⟨.error "Module does not export go_tick (not built with modified Go runtime?)",
          false⟩ ∧
      goNewReactor e initResult =
        ⟨.error "module does not export go_tick (not built with modified Go runtime?)",
          false⟩) := by
  obtain ⟨m, i, s, t⟩ := e
  refine ⟨fun hi => ?_, fun hi hs => ?_, fun hi hs ht => ?_⟩
  · subst hi; exact ⟨rfl, rfl⟩
  · subst hi; subst hs; exact ⟨rfl, rfl⟩
  · subst hi; subst hs; subst ht; exact ⟨rfl, rfl⟩

/-- Witness for `C3_function_export_validation`: a module missing only
`go_tick` fails with the `go_tick` error before the initializer call. -/
theorem C3_function_export_validation_witness :
    createReactor ⟨true, true, true, false⟩ =
      ⟨.error "Module does not export go_tick (not built with modified Go runtime?)",
        false⟩ ∧
    goNewReactor ⟨true, true, true, false⟩ (Except.ok ()) =
      ⟨.error "module does not export go_tick (not built with modified Go runtime?)",
        false⟩ :=
  (C3_function_export_validation ⟨true, true, true, false⟩ (Except.ok ())).2.2 rfl rfl rfl

/-! ## Claim C4 — `go_start_main` invoked at most once -/

/-- C4, counterexample: in the Go harness, calling `StartMain` twice on
the same instance invokes `go_start_main` twice — the Go harness has no
`mainStarted` guard, so the "at most once across all operations" claim
fails there. -/
theorem C4_cex_go_startMain_twice :
    countStartMain
      (execGoOps [GoOp.startMain (Except.ok ()), GoOp.startMain (Except.ok ())]) = 2 := by
  decide

/-- C4 (amended): the JS harness guards `go_start_main` behind the
`mainStarted` flag, so any sequence of `startMain`/`runSync`/`runAsync`
operations on one instance invokes it at most once; the Go harness has no
such guard — every `StartMain`/`Run`/`RunWithCallback` call invokes
`go_start_main` once, i.e. exactly once per operation. -/
theorem C4_start_main_guard :
    (∀ ops : List JsOp, countStartMain (execJsOps false ops) ≤ 1) ∧
    (∀ gops : List GoOp, countStartMain (execGoOps gops) = gops.length) := by
  constructor
  · intro ops
    match ops with
    | [] => simp [execJsOps]
    | op :: rest =>
      have h := execJsOp_false op
      calc countStartMain (execJsOps false (op :: rest))
          = countStartMain (execJsOp false op).2 +
              countStartMain (execJsOps (execJsOp false op).1 rest) := by
            simp [execJsOps]
        _ = countStartMain (execJsOp false op).2 + 0 := by
            rw [h.1, execJsOps_true]
        _ ≤ 1 := by simpa using h.2
  · intro gops
    induction gops with
    | nil => simp [execGoOps]
    | cons op rest ih =>
      simp [execGoOps, countStartMain_execGoOp, ih]
      omega

/-! ## Claim C5 — `random_get` and guest memory -/

/-- C5 (code bug): `random_get` returns success (errno 0) but leaves the
guest memory COMPLETELY unchanged for every in-bounds (indeed, every)
request: `crypto.getRandomValues(mem.slice(...))` fills a copy made by
`Uint8Array.slice`, not the guest buffer.  Concretely, on a 4-byte
zeroed memory with entropy `[41, 42, 43, 44]`, the call succeeds, the
span still reads back as zeros, while the discarded copy received the
random bytes. -/
theorem C5_random_get_never_writes_guest_memory :
    (∀ (m : Mem) (rnd : List Nat) (buf_ptr buf_len : Nat),
       random_get (some m) rnd buf_ptr buf_len = Except.ok (m, 0)) ∧
    random_get (some (memOfList [0, 0, 0, 0])) [41, 42, 43, 44] 0 4 =
      Except.ok (memOfList [0, 0, 0, 0], 0) ∧
    readBytes (memOfList [0, 0, 0, 0]) 0 4 = [0, 0, 0, 0] ∧
    getRandomValues [41, 42, 43, 44] (sliceClamped (memOfList [0, 0, 0, 0]) 0 4) =
      [41, 42, 43, 44] := by
  refine ⟨fun m rnd a l => rfl, rfl, by decide, by decide⟩

/-! ## Claim C6 — out-of-bounds spans in shim calls -/

/-- C6 (code bug): on a 16-byte memory whose single iovec references the
span `[12, 20)` — 4 bytes past the end — `fd_write` does NOT fail: the
data span is silently clamped by `Uint8Array.slice`, the truncated 4
bytes `[69, 70, 71, 72]` are written to the stdout sink, errno 0 is
returned, and the full requested length 8 is stored at the nwritten
pointer. -/
theorem C6_fd_write_oob_span_clamped_not_failed :
    ∃ m' : Mem,
      fd_write (some (memOfList
          [12, 0, 0, 0, 8, 0, 0, 0, 65, 66, 67, 68, 69, 70, 71, 72])) 1 0 1 8 =
        Except.ok (m', 0, [69, 70, 71, 72], []) ∧
      getUint32LE m' 8 = some 8 := by
  refine ⟨_, rfl, by decide⟩

/-! ## Claim C7 — `fd_write` sink bytes -/

/-- C7, counterexample: a single in-bounds iovec referencing the byte
`0xFF` (not valid UTF-8).  `fd_write` succeeds, but the stdout sink
captures the replacement character U+FFFD, whose UTF-8 bytes
`[239, 191, 189]` are NOT the referenced span `[255]` — the sink bytes
equal the concatenation only for valid UTF-8, not arbitrary content. -/
theorem C7_cex_invalid_utf8_replaced :
    ∃ m' : Mem,
      fd_write (some (memOfList [8, 0, 0, 0, 1, 0, 0, 0, 255, 0, 0, 0])) 1 0 1 4 =
        Except.ok (m', 0, [0xFFFD], []) ∧
      readBytes (memOfList [8, 0, 0, 0, 1, 0, 0, 0, 255, 0, 0, 0]) 8 1 = [255] ∧
      encodeUtf8 [0xFFFD] ≠ [255] := by
  refine ⟨_, rfl, by decide, by decide⟩

/-- C7 (amended): for every iovec sequence with descriptor 1 whose
entries read back from memory, whose data spans are in bounds, and whose
spans are individually preserved by the shim's decode-then-reencode
(i.e. valid UTF-8, with no sequence split across iovecs), `fd_write`
succeeds with errno 0, the stdout sink captures text whose UTF-8 bytes
are the exact concatenation of the referenced spans in order, and the
value stored at the nwritten pointer is the total length of the spans
(assumed `< 2^32`).  For arbitrary byte content the sink bytes can
differ, because `TextDecoder` replaces invalid sequences. -/
theorem C7_fd_write_exact_for_utf8_spans (m : Mem) (iovs : List (Nat × Nat))
    (iovs_ptr nwritten_ptr : Nat)
    (htab : iovTable m iovs_ptr iovs 0 = true)
    (hspan : ∀ p ∈ iovs, p.1 + p.2 ≤ m.size)
    (hclean : ∀ p ∈ iovs,
      encodeUtf8 (utf8Decode (readBytes m p.1 p.2)) = readBytes m p.1 p.2)
    (hnw : nwritten_ptr + 4 ≤ m.size)
    (htot : (iovs.map (fun p => p.2)).sum < 4294967296) :
    ∃ m', fd_write (some m) 1 iovs_ptr iovs.length nwritten_ptr =
        Except.ok (m', 0,
          (iovs.map (fun p => utf8Decode (readBytes m p.1 p.2))).flatten, []) ∧
      encodeUtf8 ((iovs.map (fun p => utf8Decode (readBytes m p.1 p.2))).flatten) =
        (iovs.map (fun p => readBytes m p.1 p.2)).flatten ∧
      getUint32LE m' nwritten_ptr = some ((iovs.map (fun p => p.2)).sum) := by
  have hlen4 : (u32Bytes ((iovs.map (fun p => p.2)).sum)).length = 4 := rfl
  obtain ⟨m', hm'⟩ := @writeBytes_isSome m nwritten_ptr
    (u32Bytes ((iovs.map (fun p => p.2)).sum)) (by rw [hlen4]; omega)
  have hm2 : setUint32LE m nwritten_ptr ((iovs.map (fun p => p.2)).sum) = some m' := hm'
  refine ⟨m', ?_, ?_, ?_⟩
  · show (do
      let (text, written) ← fdWriteLoop m iovs_ptr iovs.length 0 [] 0
      let toStdout := if 1 = 1 then text else []
      let toStderr := if 1 = 2 then text else []
      let mw ← orRange (setUint32LE m nwritten_ptr written)
      Except.ok (mw, 0, toStdout, toStderr)) = _
    rw [fdWriteLoop_spec m iovs_ptr iovs 0 [] 0 htab hspan]
    show (do
      let mw ← orRange (setUint32LE m nwritten_ptr
        (0 + (iovs.map (fun p : Nat × Nat => p.2)).sum))
      Except.ok (mw, 0,
        (if 1 = 1 then
          [] ++ (iovs.map (fun p : Nat × Nat => utf8Decode (readBytes m p.1 p.2))).flatten
         else []),
        (if 1 = 2 then
          [] ++ (iovs.map (fun p : Nat × Nat => utf8Decode (readBytes m p.1 p.2))).flatten
         else []))) = _
    rw [Nat.zero_add, hm2]
    simp only [orRange]
    rfl
  · have hmap : (iovs.map (fun p : Nat × Nat => utf8Decode (readBytes m p.1 p.2))) =
        ((iovs.map (fun p : Nat × Nat => readBytes m p.1 p.2)).map utf8Decode) := by
      rw [List.map_map]
      rfl
    rw [hmap]
    refine encodeUtf8_flatten_decode _ (fun s hs => ?_)
    obtain ⟨p, hp, rfl⟩ := List.mem_map.mp hs
    exact hclean p hp
  · have hg := getUint32LE_after_set hm2
    rwa [Nat.mod_eq_of_lt htot] at hg

/-- Witness for `C7_fd_write_exact_for_utf8_spans`: one iovec referencing
the ASCII bytes `"Hi"`. -/
theorem C7_fd_write_exact_for_utf8_spans_witness :
    ∃ m', fd_write (some (memOfList [8, 0, 0, 0, 2, 0, 0, 0, 72, 105, 0, 0]))
        1 0 [((8 : Nat), (2 : Nat))].length 4 =
        Except.ok (m', 0,
          ([((8 : Nat), (2 : Nat))].map (fun p =>
            utf8Decode (readBytes (memOfList [8, 0, 0, 0, 2, 0, 0, 0, 72, 105, 0, 0])
              p.1 p.2))).flatten, []) ∧
      encodeUtf8 (([((8 : Nat), (2 : Nat))].map (fun p =>
          utf8Decode (readBytes (memOfList [8, 0, 0, 0, 2, 0, 0, 0, 72, 105, 0, 0])
            p.1 p.2))).flatten) =
        ([((8 : Nat), (2 : Nat))].map (fun p =>
          readBytes (memOfList [8, 0, 0, 0, 2, 0, 0, 0, 72, 105, 0, 0]) p.1 p.2)).flatten ∧
      getUint32LE m' 4 = some (([((8 : Nat), (2 : Nat))].map (fun p => p.2)).sum) :=
  C7_fd_write_exact_for_utf8_spans
    (memOfList [8, 0, 0, 0, 2, 0, 0, 0, 72, 105, 0, 0])
    [((8 : Nat), (2 : Nat))] 0 4
    (by decide) (by decide) (by decide) (by decide) (by decide)

/-! ## Claim C8 — args round trip -/

/-- C8: for every argument vector, `args_sizes_get` stores the element
count and the total of each argument's UTF-8 byte length plus one, and a
subsequent `args_get` stores one pointer per argument (each the offset of
that argument's NUL-terminated UTF-8 encoding, packed contiguously from
`argv_buf_ptr`), so that reading each stored pointer back as a C string
reproduces the arguments in declaration order.  Hypotheses: the argument
encodings are NUL-free (they are C strings), the two size outputs are
disjoint and in bounds, the pointer table ends at or before the data
buffer, and the packed data fits in memory and below `2^32`. -/
theorem C8_args_round_trip (m : Mem) (args : List String)
    (argc_ptr argv_buf_size_ptr argv_ptr argv_buf_ptr : Nat)
    (hnul : ∀ a ∈ args, (0 : Nat) ∉ encodeStr a)
    (hsz1 : argc_ptr + 4 ≤ argv_buf_size_ptr)
    (hsz2 : argv_buf_size_ptr + 4 ≤ m.size)
    (hcnt : args.length < 4294967296)
    (htbl : argv_ptr + 4 * args.length ≤ argv_buf_ptr)
    (hdat : argv_buf_ptr + totalSize (args.map encodeStr) ≤ m.size)
    (h32 : argv_buf_ptr + totalSize (args.map encodeStr) < 4294967296) :
    ∃ m2 m3,
      args_sizes_get (some m) args argc_ptr argv_buf_size_ptr =
        Except.ok (m2, 0) ∧
      getUint32LE m2 argc_ptr = some args.length ∧
      getUint32LE m2 argv_buf_size_ptr = some (totalSize (args.map encodeStr)) ∧
      args_get (some m2) args argv_ptr argv_buf_ptr = Except.ok (m3, 0) ∧
      (∀ k, (hk : k < args.length) →
        getUint32LE m3 (argv_ptr + 4 * k) =
          some (argv_buf_ptr + totalSize ((args.map encodeStr).take k)) ∧
        readCString m3 (argv_buf_ptr + totalSize ((args.map encodeStr).take k)) =
          encodeStr (args.get ⟨k, hk⟩)) := by
  have hts : totalSize (args.map encodeStr) < 4294967296 := by omega
  obtain ⟨m2, hszrun, hszsize, hszcount, hsztot⟩ :=
    vecSizesGet_spec m (args.map encodeStr) argc_ptr argv_buf_size_ptr hsz1 hsz2
      (by rw [List.length_map]; exact hcnt) hts
  obtain ⟨m3, hgrun, hgsize, hgpres, hgk⟩ :=
    vecGetLoop_spec argv_ptr (args.map encodeStr) m2 0 argv_buf_ptr
      (by rw [List.length_map, Nat.zero_add]; exact htbl)
      (by rw [hszsize]; exact hdat)
      (Nat.le_of_lt h32)
  refine ⟨m2, m3, hszrun, ?_, hsztot, ?_, ?_⟩
  · rw [hszcount, List.length_map]
  · show (do
      let mx ← vecGetLoop argv_ptr m2 (args.map encodeStr) 0 argv_buf_ptr
      Except.ok (mx, 0)) = _
    rw [hgrun]
    rfl
  · intro k hk
    have hk' : k < (args.map encodeStr).length := by
      rw [List.length_map]; exact hk
    obtain ⟨hp, hr, hn⟩ := hgk k hk'
    rw [Nat.zero_add] at hp
    have hgm : (args.map encodeStr).get ⟨k, hk'⟩ = encodeStr (args.get ⟨k, hk⟩) := by
      simp
    rw [hgm] at hr hn
    refine ⟨hp, ?_⟩
    have hbound := totalSize_take_bound (args.map encodeStr) k hk'
    rw [hgm] at hbound
    refine readCString_of_packed hr hn ?_ ?_
    · rw [hgsize, hszsize]
      omega
    · exact hnul (args.get ⟨k, hk⟩) (List.get_mem args k hk)

/-- Witness for `C8_args_round_trip`: the default argument vector
`["reactor"]` on a zeroed 64-byte memory. -/
theorem C8_args_round_trip_witness :
    ∃ m2 m3,
      args_sizes_get (some (memOfList (List.replicate 64 0))) ["reactor"] 0 4 =
        Except.ok (m2, 0) ∧
      getUint32LE m2 0 = some (["reactor"].length) ∧
      getUint32LE m2 4 = some (totalSize (["reactor"].map encodeStr)) ∧
      args_get (some m2) ["reactor"] 8 16 = Except.ok (m3, 0) ∧
      (∀ k, (hk : k < ["reactor"].length) →
        getUint32LE m3 (8 + 4 * k) =
          some (16 + totalSize ((["reactor"].map encodeStr).take k)) ∧
        readCString m3 (16 + totalSize ((["reactor"].map encodeStr).take k)) =
          encodeStr (["reactor"].get ⟨k, hk⟩)) :=
  C8_args_round_trip (memOfList (List.replicate 64 0)) ["reactor"] 0 4 8 16
    (by decide) (by decide) (by decide) (by decide) (by decide) (by decide)
    (by decide)

/-! ## Claim C9 — `proc_exit` semantics -/

/-- C9, counterexample: the value `proc_exit 3` raises is a PLAIN
`Error` (`JsError.error "exit(3)"`), the same constructor any host fault
uses, and the run outcome it produces is the ordinary error outcome
`RunOutcome.threw` — there is no distinguished, non-fault exit outcome. -/
theorem C9_cex_exit_is_plain_error :
    proc_exit 3 = Except.error (JsError.error "exit(3)") ∧
    (jsRunAsyncLoop [Except.error (JsError.error "exit(3)")] []).outcome =
      RunOutcome.threw (JsError.error "exit(3)") := by
  exact ⟨rfl, rfl⟩

/-- C9 (amended): `proc_exit(code)` throws `new Error("exit(code)")`.
The exception does terminate the run immediately — after `n` Ready ticks
a tick performing `proc_exit` ends `runAsync` after exactly `n + 1` tick
invocations, bypassing the rest of the schedule, and the message carries
the exit code — but the thrown value is an ordinary `Error` and the run
outcome is the same `threw` outcome a fault produces, distinguishable
only by its message string. -/
theorem C9_proc_exit_terminates_as_plain_error (code : Int) (n : Nat)
    (rest : List (Except JsError Int)) :
    proc_exit code =
      Except.error (JsError.error ("exit(" ++ toString code ++ ")")) ∧
    (jsRunAsyncLoop (List.replicate n (Except.ok 0) ++
        Except.error (JsError.error ("exit(" ++ toString code ++ ")")) :: rest)
        []).outcome =
      RunOutcome.threw (JsError.error ("exit(" ++ toString code ++ ")")) ∧
    countTicks (jsRunAsyncLoop (List.replicate n (Except.ok 0) ++
        Except.error (JsError.error ("exit(" ++ toString code ++ ")")) :: rest)
        []).events = n + 1 := by
  have h := jsRunAsyncLoop_ready_then_throw
    (JsError.error ("exit(" ++ toString code ++ ")")) rest n []
  exact ⟨rfl, h.1, by rw [h.2]; simp⟩

/-! ## Claim C10 — handlers before and after `setMemory` -/

/-- C10: every memory-touching WASI handler produced by
`createMinimalWASI` (`args_sizes_get`, `args_get`, `environ_sizes_get`,
`environ_get`, `clock_time_get`, `fd_write`, `fd_fdstat_get`,
`random_get`) throws a `TypeError` (null memory dereference) — rather
than returning a WASI error code — when invoked before `setMemory`; and
once the memory is set, none of them throws for in-bounds arguments. -/
theorem C10_null_memory_throws_then_ok (m : Mem) (args : List String)
    (env : List (String × String)) (rnd : List Nat)
    (a1 a2 g1 g2 e1 e2 f1 f2 : Nat)
    (clock_id nowMs perfNs ct : Nat)
    (fda iovs_ptr iovs_len nwritten_ptr fdb stat_ptr rp rl : Nat) :
    args_sizes_get none args a1 a2 = Except.error nullMemErr ∧
    args_get none args g1 g2 = Except.error nullMemErr ∧
    environ_sizes_get none env e1 e2 = Except.error nullMemErr ∧
    environ_get none env f1 f2 = Except.error nullMemErr ∧
    clock_time_get none clock_id nowMs perfNs ct = Except.error nullMemErr ∧
    fd_write none fda iovs_ptr iovs_len nwritten_ptr = Except.error nullMemErr ∧
    fd_fdstat_get none fdb stat_ptr = Except.error nullMemErr ∧
    random_get none rnd rp rl = Except.error nullMemErr ∧
    (a1 + 4 ≤ m.size → a2 + 4 ≤ m.size →
      ∃ r, args_sizes_get (some m) args a1 a2 = Except.ok r) ∧
    (g1 + 4 * args.length ≤ g2 →
      g2 + totalSize (args.map encodeStr) ≤ m.size →
      g2 + totalSize (args.map encodeStr) ≤ 4294967296 →
      ∃ r, args_get (some m) args g1 g2 = Except.ok r) ∧
    (e1 + 4 ≤ m.size → e2 + 4 ≤ m.size →
      ∃ r, environ_sizes_get (some m) env e1 e2 = Except.ok r) ∧
    (f1 + 4 * (envArray env).length ≤ f2 →
      f2 + totalSize ((envArray env).map encodeStr) ≤ m.size →
      f2 + totalSize ((envArray env).map encodeStr) ≤ 4294967296 →
      ∃ r, environ_get (some m) env f1 f2 = Except.ok r) ∧
    (ct + 8 ≤ m.size →
      ∃ r, clock_time_get (some m) clock_id nowMs perfNs ct = Except.ok r) ∧
    (iovs_ptr + iovs_len * 8 ≤ m.size → nwritten_ptr + 4 ≤ m.size →
      ∃ r, fd_write (some m) fda iovs_ptr iovs_len nwritten_ptr = Except.ok r) ∧
    (stat_ptr + 24 ≤ m.size →
      ∃ r, fd_fdstat_get (some m) fdb stat_ptr = Except.ok r) ∧
    (∃ r, random_get (some m) rnd rp rl = Except.ok r) := by
  refine ⟨rfl, rfl, rfl, rfl, rfl, rfl, rfl, rfl,
    ?_, ?_, ?_, ?_, ?_, ?_, ?_, ⟨(m, 0), rfl⟩⟩
  · intro h1 h2
    exact vecSizesGet_ok m (args.map encodeStr) a1 a2 h1 h2
  · intro h1 h2 h3
    refine vecGet_ok m (args.map encodeStr) g1 g2 ?_ h2 h3
    rw [List.length_map]
    exact h1
  · intro h1 h2
    exact vecSizesGet_ok m ((envArray env).map encodeStr) e1 e2 h1 h2
  · intro h1 h2 h3
    refine vecGet_ok m ((envArray env).map encodeStr) f1 f2 ?_ h2 h3
    rw [List.length_map]
    exact h1
  · intro h
    exact clock_time_get_ok m clock_id nowMs perfNs ct h
  · intro h1 h2
    exact fd_write_ok m fda iovs_ptr iovs_len nwritten_ptr h1 h2
  · intro h
    exact fd_fdstat_get_ok m fdb stat_ptr h

/-- Witness for `C10_null_memory_throws_then_ok` on a zeroed 64-byte
memory with the default argument vector and one environment entry. -/
theorem C10_null_memory_throws_then_ok_witness :
    args_sizes_get none ["reactor"] 0 4 = Except.error nullMemErr ∧
    args_get none ["reactor"] 8 16 = Except.error nullMemErr ∧
    environ_sizes_get none [("A", "B")] 0 4 = Except.error nullMemErr ∧
    environ_get none [("A", "B")] 8 16 = Except.error nullMemErr ∧
    clock_time_get none 0 5 7 0 = Except.error nullMemErr ∧
    fd_write none 1 0 1 8 = Except.error nullMemErr ∧
    fd_fdstat_get none 1 0 = Except.error nullMemErr ∧
    random_get none [9] 0 1 = Except.error nullMemErr ∧
    (∃ r, args_sizes_get (some (memOfList (List.replicate 64 0))) ["reactor"] 0 4 =
      Except.ok r) ∧
    (∃ r, args_get (some (memOfList (List.replicate 64 0))) ["reactor"] 8 16 =
      Except.ok r) ∧
    (∃ r, environ_sizes_get (some (memOfList (List.replicate 64 0))) [("A", "B")]
      0 4 = Except.ok r) ∧
    (∃ r, environ_get (some (memOfList (List.replicate 64 0))) [("A", "B")] 8 16 =
      Except.ok r) ∧
    (∃ r, clock_time_get (some (memOfList (List.replicate 64 0))) 0 5 7 0 =
      Except.ok r) ∧
    (∃ r, fd_write (some (memOfList (List.replicate 64 0))) 1 0 1 8 =
      Except.ok r) ∧
    (∃ r, fd_fdstat_get (some (memOfList (List.replicate 64 0))) 1 0 =
      Except.ok r) ∧
    (∃ r, random_get (some (memOfList (List.replicate 64 0))) [9] 0 1 =
      Except.ok r) := by
  obtain ⟨n1, n2, n3, n4, n5, n6, n7, n8, k1, k2, k3, k4, k5, k6, k7, k8⟩ :=
    C10_null_memory_throws_then_ok (memOfList (List.replicate 64 0)) ["reactor"]
      [("A", "B")] [9] 0 4 8 16 0 4 8 16 0 5 7 0 1 0 1 8 1 0 0 1
  exact ⟨n1, n2, n3, n4, n5, n6, n7, n8,
    k1 (by decide) (by decide), k2 (by decide) (by decide) (by decide),
    k3 (by decide) (by decide), k4 (by decide) (by decide) (by decide),
    k5 (by decide), k6 (by decide) (by decide), k7 (by decide), k8⟩

end Reactor
